import Mathlib

/-!
Verification of the real-time execution core of the yage emulator front-end
(src/native/yage_libretro.c): the audio sample-rate classifier and detector,
the lock-free SPSC audio ring buffer, the rewind snapshot store, the frame
scheduler catch-up loop, and the volume path of the audio batch callback.

Conventions of the shallow embedding:
* C `double` values that only ever hold integers or exact ratios of small
  integers are modelled as rationals (`ℚ`); every comparison performed by the
  code on such values is exact, so the rational model agrees with the IEEE
  one on all inputs the theorems mention.
* C `int` counters are modelled as `Int` (2^31 wraparound is never reached in
  any scenario considered) or as `Nat` where the code keeps them nonnegative.
* Ring-buffer cursors are stored already masked, as in the C code; the C mask
  `x & (SIZE - 1)` equals `x % SIZE` because `SIZE` is a power of two, so the
  embedding uses `% SIZE`.
* Global mutable state becomes explicit state records passed through the
  functions that the C code mutates them in.
-/

namespace Yage

/-! ## Sample-rate classification (classify_sample_rate, yage_libretro.c:286) -/

/-- Embedding of `classify_sample_rate`: bucket a measured samples-per-video-
frame ratio into one of four canonical rates using the code's thresholds. -/
def classify_sample_rate (samples_per_frame : ℚ) : ℚ :=
  if 1600 < samples_per_frame then 131072
  else if 850 < samples_per_frame then 65536
  else if 650 < samples_per_frame then 48000
  else 32768

/-! ## Rate detector state machine (audio_sample_batch_callback phases 1-2,
yage_libretro.c:774-839, with the video-frame counter incremented by
`video_refresh_callback`, yage_libretro.c:626) -/

/-- State of the adaptive rate detector: the file-scope globals
`g_rate_detected`, `g_rate_detection_samples`, `g_video_frames_total`,
`g_detected_rate`, `g_reported_rate`, `g_frames_since_reinit`,
`g_monitor_frames`, `g_monitor_samples`. -/
structure RateDet where
  rateDetected : Bool
  detectionSamples : Int
  videoFramesTotal : Int
  detectedRate : ℚ
  reportedRate : ℚ
  framesSinceReinit : Int
  monitorFrames : Int
  monitorSamples : Int
  deriving DecidableEq

/-- Embedding of the `g_video_frames_total++` performed by
`video_refresh_callback` for each completed video frame. -/
def video_refresh (st : RateDet) : RateDet :=
  { st with videoFramesTotal := st.videoFramesTotal + 1 }

/-- Embedding of the rate-detection part (phases 1 and 2) of
`audio_sample_batch_callback` for a batch of `frames` sample frames.  The
returned boolean records whether `init_opensl_audio` was invoked by this
batch (initial commit or steady-state reinitialisation). -/
def rate_detect_batch (frames : Int) (st : RateDet) : RateDet × Bool :=
  if st.rateDetected then
    -- phase 2: continuous monitoring every 120 video frames
    let ms := st.monitorSamples + frames
    let win := st.videoFramesTotal - st.monitorFrames
    let since := st.videoFramesTotal - st.framesSinceReinit
    if 120 ≤ win then
      let avg : ℚ := if 0 < win then (ms : ℚ) / (win : ℚ) else 0
      let newRate := classify_sample_rate avg
      if newRate ≠ st.detectedRate ∧ 180 < since then
        ({ st with monitorSamples := 0, monitorFrames := st.videoFramesTotal,
                   detectedRate := newRate,
                   framesSinceReinit := st.videoFramesTotal }, true)
      else
        ({ st with monitorSamples := 0,
                   monitorFrames := st.videoFramesTotal }, false)
    else
      ({ st with monitorSamples := ms }, false)
  else
    -- phase 1: warm-up; commit once 15 video frames have been observed
    let ds := st.detectionSamples + frames
    if 15 ≤ st.videoFramesTotal then
      let avg : ℚ :=
        if 0 < st.videoFramesTotal then (ds : ℚ) / (st.videoFramesTotal : ℚ)
        else 0
      let measured := classify_sample_rate avg
      let use_rate :=
        if 8000 ≤ st.reportedRate ∧ st.reportedRate ≤ 192000 then
          st.reportedRate
        else measured
      ({ st with detectionSamples := ds, rateDetected := true,
                 detectedRate := use_rate,
                 framesSinceReinit := st.videoFramesTotal,
                 monitorFrames := st.videoFramesTotal,
                 monitorSamples := 0 }, true)
    else
      ({ st with detectionSamples := ds }, false)

/-- Detector state right after a ROM load (yage_libretro.c:1409-1415) with the
externally reported nominal rate stored in `g_reported_rate`. -/
def detInit (reported : ℚ) : RateDet :=
  { rateDetected := false, detectionSamples := 0, videoFramesTotal := 0,
    detectedRate := 0, reportedRate := reported, framesSinceReinit := 0,
    monitorFrames := 0, monitorSamples := 0 }

/-- Feed the detector a synthetic stream: `n` video frames, each followed by
one audio batch of `spf` sample frames (constant samples per video frame). -/
def feedDet (spf : Int) : Nat → RateDet → RateDet
  | 0, st => st
  | n + 1, st => feedDet spf n (rate_detect_batch spf (video_refresh st)).1

/-! ## SPSC audio ring buffer (yage_libretro.c:226-303, 305-360, 858-897)

The ring is modelled generically over the slot type `α` and the size `N`;
the C code instantiates it with `int16_t` slots and
`RING_BUFFER_SIZE = 32768`.  Cursors are kept already reduced modulo `N`,
exactly as the C code keeps them masked with `& (N - 1)`. -/

/-- The C constant `RING_BUFFER_SIZE`. -/
def RING_BUFFER_SIZE : Nat := 32768

/-- Ring-buffer state: backing store `buf` (only indices `< N` are ever
read), consumer cursor `rd` (`g_ring_read`) and producer cursor `wr`
(`g_ring_write`). -/
structure Ring (α : Type) where
  buf : Nat → α
  rd : Nat
  wr : Nat

/-- Embedding of `ring_buffer_available`:
`(write - read + N) & (N - 1)` computed on masked cursors. -/
def ring_buffer_available (N : Nat) (st : Ring α) : Nat :=
  (st.wr + N - st.rd) % N

/-- Embedding of `ring_buffer_free`: `N - 1 - available`. -/
def ring_buffer_free (N : Nat) (st : Ring α) : Nat :=
  N - 1 - ring_buffer_available N st

/-- The producer write loop of `audio_sample_batch_callback` phase 3: store
each sample at the write cursor and advance the cursor modulo `N`. -/
def writeSeq (N : Nat) : (Nat → α) → Nat → List α → (Nat → α) × Nat
  | buf, w, [] => (buf, w)
  | buf, w, x :: xs =>
      writeSeq N (fun j => if j = w then x else buf j) ((w + 1) % N) xs

/-- Embedding of the ring-buffer producer side of
`audio_sample_batch_callback` (phase 3, yage_libretro.c:858-897): first the
adaptive latency cap (skip ahead, keeping `maxBuf / 2` slots, when more than
`maxBuf` slots are buffered), then the overflow policy (advance the read
cursor by `length - free + 128` when the batch does not fit), then the write
loop.  `maxBuf` stands for the C `max_buffered`, computed there from the
detected rate in floating point with a floor of
`AUDIO_BUFFER_FRAMES * 2 * 4 = 2048`; it is kept as a parameter here. -/
def audio_push (N maxBuf : Nat) (xs : List α) (st : Ring α) : Ring α :=
  let a0 := ring_buffer_available N st
  let r1 := if maxBuf < a0 then (st.rd + (a0 - maxBuf / 2)) % N else st.rd
  let a1 := if maxBuf < a0 then maxBuf / 2 else a0
  let f1 := N - 1 - a1
  let r2 := if f1 < xs.length then (r1 + (xs.length - f1 + 128)) % N else r1
  let bw := writeSeq N st.buf st.wr xs
  { buf := bw.1, rd := r2, wr := bw.2 }

/-- The ring-consuming core of `sl_buffer_callback`
(yage_libretro.c:329-357): read up to `pairs` stereo pairs, two slots at a
time, as long as at least two slots are available; return the consumed slots
in order together with the state after the final cursor store.  The
underrun branch of the callback synthesises fade-out samples without
consuming from the ring, so it leaves this state untouched. -/
def readPairs (N : Nat) : Ring α → Nat → List α × Ring α
  | st, 0 => ([], st)
  | st, pairs + 1 =>
      if 2 ≤ ring_buffer_available N st then
        let x := st.buf st.rd
        let r1 := (st.rd + 1) % N
        let y := st.buf r1
        let st1 : Ring α := { buf := st.buf, rd := (r1 + 1) % N, wr := st.wr }
        let rest := readPairs N st1 pairs
        (x :: y :: rest.1, rest.2)
      else ([], st)

/-- Abstraction function: the queue contents, oldest first — the slots from
the read cursor up to (but excluding) the write cursor. -/
def ringContents (N : Nat) (st : Ring α) : List α :=
  (List.range (ring_buffer_available N st)).map
    (fun i => st.buf ((st.rd + i) % N))

/-- One interaction with the ring: a producer batch push or a consumer
callback that drains up to `n` stereo pairs. -/
inductive RingOp (α : Type) where
  | push : List α → RingOp α
  | pop : Nat → RingOp α

/-- Run a sequence of ring operations, collecting every slot the consumer
reads out of the ring, in order. -/
def runRing (N maxBuf : Nat) : Ring α → List (RingOp α) → Ring α × List α
  | st, [] => (st, [])
  | st, RingOp.push xs :: ops => runRing N maxBuf (audio_push N maxBuf xs st) ops
  | st, RingOp.pop n :: ops =>
      let r := readPairs N st n
      let rest := runRing N maxBuf r.2 ops
      (rest.1, r.1 ++ rest.2)

/-- All samples pushed by a sequence of operations, in push order. -/
def pushedOf : List (RingOp α) → List α
  | [] => []
  | RingOp.push xs :: ops => xs ++ pushedOf ops
  | RingOp.pop _ :: ops => pushedOf ops

/-- Check, along the execution, that every push finds room for its whole
batch (`length ≤ free`, so the overflow drop never fires) and never sees
more than `maxBuf` slots already buffered (so the latency-cap drop never
fires). -/
def noDropB (N maxBuf : Nat) : Ring α → List (RingOp α) → Bool
  | _, [] => true
  | st, RingOp.push xs :: ops =>
      decide (xs.length ≤ ring_buffer_free N st) &&
      decide (ring_buffer_available N st ≤ maxBuf) &&
      noDropB N maxBuf (audio_push N maxBuf xs st) ops
  | st, RingOp.pop n :: ops => noDropB N maxBuf (readPairs N st n).2 ops

/-- Check, along the execution, the no-overflow side condition exactly as
claim C2 states it: the number of samples pushed and not yet popped never
exceeds `N - 1`.  The running tally `k` counts pushed-but-unconsumed
samples. -/
def boundedB (N maxBuf : Nat) : Nat → Ring α → List (RingOp α) → Bool
  | _, _, [] => true
  | k, st, RingOp.push xs :: ops =>
      decide (k + xs.length ≤ N - 1) &&
      boundedB N maxBuf (k + xs.length) (audio_push N maxBuf xs st) ops
  | k, st, RingOp.pop n :: ops =>
      let r := readPairs N st n
      boundedB N maxBuf (k - r.1.length) r.2 ops

/-- Ring state after `init_opensl_audio` reset it (cursors zero, buffer
zeroed; the model fills the backing store with a default slot). -/
def ringInit (dflt : α) : Ring α :=
  { buf := fun _ => dflt, rd := 0, wr := 0 }

/-! ## Rewind snapshot store (yage_libretro.c:1731-1818)

Generic over the snapshot type `σ` (a serialized emulator state of
`g_rewind_state_size` bytes in the C code).  Serialization into a slot is
modelled by storing the pushed snapshot value; deserialization success is a
predicate `desOk` on the stored snapshot, mirroring the boolean result of
`retro_unserialize`. -/

/-- Rewind store state: the globals `g_rewind_snapshots`, `g_rewind_head`,
`g_rewind_count`, `g_rewind_capacity`. -/
structure RewindStore (σ : Type) where
  snapshots : Nat → σ
  head : Nat
  count : Nat
  capacity : Nat

/-- Store right after a successful `yage_core_rewind_init` with the given
capacity (slots uninitialised; the model fills them with a default). -/
def rewind_empty (cap : Nat) (dflt : σ) : RewindStore σ :=
  { snapshots := fun _ => dflt, head := 0, count := 0, capacity := cap }

/-- Embedding of `yage_core_rewind_push` in the successful case: serialize
the current state `s` into the slot at `head`, advance `head` circularly,
and increment `count` up to `capacity`. -/
def rewind_push (st : RewindStore σ) (s : σ) : RewindStore σ :=
  { st with
    snapshots := fun j => if j = st.head then s else st.snapshots j,
    head := (st.head + 1) % st.capacity,
    count := if st.count < st.capacity then st.count + 1 else st.count }

/-- Embedding of `yage_core_rewind_pop`: fail (result `-1`) without touching
anything when `count == 0`; otherwise move `head` back circularly, decrement
`count`, and deserialize the snapshot at the new `head` — reporting `-1`
when `retro_unserialize` (modelled by `desOk`) rejects it, with `head` and
`count` already updated, exactly as in the C code.  Returns the C result
code, the state after the call, and the snapshot restored (if any). -/
def rewind_pop (desOk : σ → Bool) (st : RewindStore σ) :
    Int × RewindStore σ × Option σ :=
  if st.count = 0 then (-1, st, none)
  else
    let h := (st.head + st.capacity - 1) % st.capacity
    let st1 : RewindStore σ :=
      { st with head := h, count := st.count - 1 }
    if desOk (st.snapshots h) then (0, st1, some (st.snapshots h))
    else (-1, st1, none)

/-- Push a whole list of snapshots in order. -/
def rewind_pushAll (st : RewindStore σ) (l : List σ) : RewindStore σ :=
  l.foldl rewind_push st

/-- Pop `n` times in a row, collecting the result code and restored snapshot
of each call. -/
def rewind_popN (desOk : σ → Bool) (st : RewindStore σ) :
    Nat → List (Int × Option σ) × RewindStore σ
  | 0 => ([], st)
  | n + 1 =>
      let r := rewind_pop desOk st
      let rest := rewind_popN desOk r.2.1 n
      ((r.1, r.2.2) :: rest.1, rest.2)

/-! ## Frame scheduler catch-up loop (frame_loop_thread, yage_libretro.c:2128-2167) -/

/-- The C constant `BASE_FRAME_NS` (1e9 / 59.7275, rounded). -/
def BASE_FRAME_NS : Nat := 16742706

/-- Target emulation frame duration in nanoseconds: `BASE_FRAME_NS * 100 /
speed_pct` with the speed percentage clamped to at least 25, exactly as at
yage_libretro.c:2129-2132.  (The setter `yage_frame_loop_set_speed`
additionally clamps to at most 800 before the value reaches this loop.) -/
def target_frame_ns (speed_pct : Nat) : Nat :=
  let s := if speed_pct < 25 then 25 else speed_pct
  BASE_FRAME_NS * 100 / s

/-- The catch-up while-loop: run one emulation frame and subtract `target`
from the accumulator while the accumulator still holds a full frame and
fewer than `fuel` frames have run (the loop enters with `fuel = 8`).  The
`g_floop_running` flag, re-checked by the C loop each iteration, is taken to
stay set for the duration of the iteration.  Returns the accumulator after
the loop and the number of frames run. -/
def catch_up (target : Nat) : Nat → Nat → Nat × Nat
  | 0, accum => (accum, 0)
  | fuel + 1, accum =>
      if target ≤ accum then
        let r := catch_up target fuel (accum - target)
        (r.1, r.2 + 1)
      else (accum, 0)

/-- One scheduler iteration's emulation bookkeeping: the catch-up loop with
a per-tick cap of 8 frames, followed by the spiral-of-death guard that
resets the accumulator to zero when it still exceeds 10 targets.  Returns
the accumulator carried to the next iteration and the frames run. -/
def sched_iter (speed_pct accum : Nat) : Nat × Nat :=
  let t := target_frame_ns speed_pct
  let r := catch_up t 8 accum
  (if t * 10 < r.1 then 0 else r.1, r.2)

/-! ## Volume control and the audio-buffer volume path
(yage_core_set_volume, yage_libretro.c:1661-1667, and
audio_sample_batch_callback, yage_libretro.c:742-760) -/

/-- The C constant `AUDIO_BUFFER_SIZE` (in sample frames; the staging buffer
holds twice as many stereo samples). -/
def AUDIO_BUFFER_SIZE : Nat := 8192

/-- Embedding of `yage_core_set_volume`: clamp the requested volume into
[0, 1] before storing it in `g_volume`. -/
def yage_core_set_volume (volume : ℚ) : ℚ :=
  if volume < 0 then 0
  else if 1 < volume then 1
  else volume

/-- The `(int16_t)` cast of the C scaling expression: reduction into
[-32768, 32767] modulo 2^16. -/
def wrap16 (z : Int) : Int := (z + 32768) % 65536 - 32768

/-- Embedding of the volume-application head of
`audio_sample_batch_callback`: truncate the batch to the staging buffer's
capacity, then fill the staging buffer with silence when audio is disabled
or the volume is at most 0, copy the input untouched when the volume is at
least 1, and scale by an 8-bit fixed-point factor otherwise (the C
arithmetic right shift `>> 8` is floor division by 256). -/
def audio_scale (enabled : Bool) (vol : ℚ) (data : List Int) : List Int :=
  let d := data.take (AUDIO_BUFFER_SIZE * 2)
  if !enabled || decide (vol ≤ 0) then
    List.replicate d.length 0
  else if 1 ≤ vol then d
  else
    let volFp : Int := ⌊vol * 256⌋
    d.map (fun x => wrap16 (Int.fdiv (x * volFp) 256))

/-! ## Theorems -/

/-! ### Helper lemmas for the rewind store -/

/-- Unfolding one push at the front of a push list. -/
theorem rewind_pushAll_cons (st : RewindStore σ) (x : σ) (xs : List σ) :
    rewind_pushAll st (x :: xs) = rewind_pushAll (rewind_push st x) xs := rfl

/-- Splitting the last push off a push list. -/
theorem rewind_pushAll_concat (st : RewindStore σ) (l : List σ) (a : σ) :
    rewind_pushAll st (l ++ [a]) = rewind_push (rewind_pushAll st l) a := by
  unfold rewind_pushAll
  rw [List.foldl_append]
  rfl

/-- Pushing never changes the capacity. -/
theorem rewind_pushAll_capacity (l : List σ) (st : RewindStore σ) :
    (rewind_pushAll st l).capacity = st.capacity := by
  induction l generalizing st with
  | nil => rfl
  | cons x xs ih => rw [rewind_pushAll_cons]; exact ih (rewind_push st x)

/-- Pushing keeps the head cursor inside the ring. -/
theorem rewind_pushAll_head_lt (l : List σ) (st : RewindStore σ)
    (hcap : 0 < st.capacity) (hh : st.head < st.capacity) :
    (rewind_pushAll st l).head < st.capacity := by
  induction l generalizing st with
  | nil => exact hh
  | cons x xs ih =>
      rw [rewind_pushAll_cons]
      exact ih (rewind_push st x) hcap (Nat.mod_lt _ hcap)

/-- Popping immediately after a push succeeds and restores exactly the
snapshot just pushed, for any deserializer that accepts it. -/
theorem rewind_pop_push (desOk : σ → Bool) (st : RewindStore σ) (s : σ)
    (hcap : 0 < st.capacity) (hh : st.head < st.capacity)
    (hdes : desOk s = true) :
    (rewind_pop desOk (rewind_push st s)).1 = 0 ∧
    (rewind_pop desOk (rewind_push st s)).2.2 = some s := by
  have ecnt : (rewind_push st s).count
      = if st.count < st.capacity then st.count + 1 else st.count := rfl
  have ehead : (rewind_push st s).head = (st.head + 1) % st.capacity := rfl
  have ecap : (rewind_push st s).capacity = st.capacity := rfl
  have hcount : ¬ (rewind_push st s).count = 0 := by
    rw [ecnt]
    split <;> omega
  have hidx : ((rewind_push st s).head + (rewind_push st s).capacity - 1) %
      (rewind_push st s).capacity = st.head := by
    rw [ehead, ecap]
    have h1 : (st.head + 1) % st.capacity + st.capacity - 1
        = (st.head + 1) % st.capacity + (st.capacity - 1) := by omega
    rw [h1, Nat.mod_add_mod]
    have h2 : st.head + 1 + (st.capacity - 1) = st.head + st.capacity := by
      omega
    rw [h2, Nat.add_mod_right, Nat.mod_eq_of_lt hh]
  have hs : (rewind_push st s).snapshots st.head = s := by
    simp [rewind_push]
  simp [rewind_pop, hcount, hidx, hs, hdes]

/-- Bulk-push characterisation while the pushes stay within the ring's tail:
the head advances by the list length (modulo capacity), the count saturates
at the capacity, the pushed snapshots land in consecutive slots starting at
the old head, and all other slots are untouched. -/
theorem rewind_pushAll_fill (l : List σ) (st : RewindStore σ)
    (hcap : 0 < st.capacity) (hh : st.head < st.capacity)
    (hcnt : st.count ≤ st.capacity)
    (hfit : st.head + l.length ≤ st.capacity) :
    (rewind_pushAll st l).head = (st.head + l.length) % st.capacity ∧
    (rewind_pushAll st l).count = min (st.count + l.length) st.capacity ∧
    (∀ i, (hi : i < l.length) →
      (rewind_pushAll st l).snapshots (st.head + i) = l.get ⟨i, hi⟩) ∧
    (∀ j, j < st.head ∨ st.head + l.length ≤ j →
      (rewind_pushAll st l).snapshots j = st.snapshots j) := by
  induction l generalizing st with
  | nil =>
      refine ⟨?_, ?_, ?_, fun j hj => rfl⟩
      · show st.head = (st.head + 0) % st.capacity
        rw [Nat.add_zero, Nat.mod_eq_of_lt hh]
      · show st.count = min (st.count + 0) st.capacity
        omega
      · intro i hi
        simp at hi
  | cons x xs ih =>
      rw [rewind_pushAll_cons]
      have ecap : (rewind_push st x).capacity = st.capacity := rfl
      have ehead : (rewind_push st x).head = (st.head + 1) % st.capacity :=
        rfl
      have ecnt : (rewind_push st x).count
          = if st.count < st.capacity then st.count + 1 else st.count := rfl
      have hpcnt : (rewind_push st x).count
          = min (st.count + 1) st.capacity := by
        rw [ecnt]
        split <;> omega
      have hlen : (x :: xs).length = xs.length + 1 := by simp
      have hslot : (rewind_push st x).snapshots st.head = x := by
        show (if st.head = st.head then x else st.snapshots st.head) = x
        rw [if_pos rfl]
      have hother : ∀ j, ¬ j = st.head →
          (rewind_push st x).snapshots j = st.snapshots j := by
        intro j hne
        show (if j = st.head then x else st.snapshots j) = st.snapshots j
        rw [if_neg hne]
      rcases Nat.lt_or_ge (st.head + 1) st.capacity with hw | hw
      · -- the first push does not wrap
        have hph : (rewind_push st x).head = st.head + 1 := by
          rw [ehead]
          exact Nat.mod_eq_of_lt hw
        have hfit1 : (rewind_push st x).head + xs.length ≤ st.capacity := by
          rw [hph]
          rw [hlen] at hfit
          omega
        obtain ⟨ih1, ih2, ih3, ih4⟩ :=
          ih (rewind_push st x) (by rw [ecap]; exact hcap)
            (by rw [hph, ecap]; exact hw)
            (by rw [hpcnt, ecap]; omega) (by rw [ecap]; exact hfit1)
        rw [ecap] at ih1 ih2
        rw [hpcnt] at ih2
        refine ⟨?_, ?_, ?_, ?_⟩
        · rw [ih1, hph, hlen]
          have harr : st.head + 1 + xs.length
              = st.head + (xs.length + 1) := by omega
          rw [harr]
        · rw [ih2, hlen]
          omega
        · intro i hi
          cases i with
          | zero =>
              have hj := ih4 st.head (Or.inl (by rw [hph]; omega))
              rw [show st.head + 0 = st.head from rfl]
              show (rewind_pushAll (rewind_push st x) xs).snapshots st.head
                = x
              rw [hj, hslot]
          | succ i =>
              have hi2 : i < xs.length := by
                rw [hlen] at hi
                omega
              have hrec := ih3 i hi2
              rw [hph] at hrec
              have harr : st.head + (i + 1) = st.head + 1 + i := by omega
              rw [harr, hrec]
              rfl
        · intro j hj
          rw [hlen] at hj
          have hj2 : j < (rewind_push st x).head ∨
              (rewind_push st x).head + xs.length ≤ j := by
            rw [hph]
            omega
          have hne : ¬ j = st.head := by omega
          rw [ih4 j hj2]
          exact hother j hne
      · -- the first push wraps, so it filled the last slot and xs is empty
        have hxs : xs = [] := by
          rw [hlen] at hfit
          have hxl : xs.length = 0 := by omega
          exact List.length_eq_zero.mp hxl
        subst hxs
        refine ⟨rfl, ?_, ?_, ?_⟩
        · show (rewind_push st x).count
            = min (st.count + (x :: ([] : List σ)).length) st.capacity
          rw [hpcnt, hlen]
          omega
        · intro i hi
          have hi0 : i = 0 := by
            rw [hlen] at hi
            omega
          subst hi0
          exact hslot
        · intro j hj
          rw [hlen] at hj
          have hne : ¬ j = st.head := by omega
          exact hother j hne

/-! ### Helper lemmas for the ring buffer -/

/-- The available count is always strictly below the ring size. -/
theorem ring_buffer_available_lt (N : Nat) (hN : 0 < N) (st : Ring α) :
    ring_buffer_available N st < N :=
  Nat.mod_lt _ hN

/-- Available slots of the freshly reset ring. -/
theorem ringContents_init (dflt : α) :
    ringContents RING_BUFFER_SIZE (ringInit dflt) = [] := by
  simp [ringContents, ring_buffer_available, ringInit, RING_BUFFER_SIZE]

/-- Writing one slot at the write cursor appends it to the queue contents,
as long as one slot stays free. -/
theorem write1_contents (st : Ring α) (x : α)
    (hr : st.rd < RING_BUFFER_SIZE) (hw : st.wr < RING_BUFFER_SIZE)
    (hav : ring_buffer_available RING_BUFFER_SIZE st
      < RING_BUFFER_SIZE - 1) :
    ringContents RING_BUFFER_SIZE
        { buf := fun j => if j = st.wr then x else st.buf j,
          rd := st.rd, wr := (st.wr + 1) % RING_BUFFER_SIZE }
      = ringContents RING_BUFFER_SIZE st ++ [x] := by
  have e : ring_buffer_available RING_BUFFER_SIZE
      { buf := fun j => if j = st.wr then x else st.buf j,
        rd := st.rd, wr := (st.wr + 1) % RING_BUFFER_SIZE }
      = ring_buffer_available RING_BUFFER_SIZE st + 1 := by
    simp only [ring_buffer_available, RING_BUFFER_SIZE] at hav hr hw ⊢
    omega
  unfold ringContents
  rw [e, List.range_succ, List.map_append]
  congr 1
  · apply List.map_congr_left
    intro i hi
    rw [List.mem_range] at hi
    have hne : ¬ (st.rd + i) % RING_BUFFER_SIZE = st.wr := by
      simp only [ring_buffer_available, RING_BUFFER_SIZE] at hi hav hr hw ⊢
      omega
    simp only [hne, if_false]
  · have heq : (st.rd + ring_buffer_available RING_BUFFER_SIZE st) %
        RING_BUFFER_SIZE = st.wr := by
      simp only [ring_buffer_available, RING_BUFFER_SIZE] at hav hr hw ⊢
      omega
    simp only [List.map_cons, List.map_nil, heq, if_true]

/-- The write loop of a batch that fits (leaving the reserved slot free)
appends the batch to the queue contents and leaves the read cursor alone. -/
theorem writeSeq_contents (xs : List α) (st : Ring α)
    (hr : st.rd < RING_BUFFER_SIZE) (hw : st.wr < RING_BUFFER_SIZE)
    (hfit : ring_buffer_available RING_BUFFER_SIZE st + xs.length
      ≤ RING_BUFFER_SIZE - 1) :
    ringContents RING_BUFFER_SIZE
        { buf := (writeSeq RING_BUFFER_SIZE st.buf st.wr xs).1,
          rd := st.rd, wr := (writeSeq RING_BUFFER_SIZE st.buf st.wr xs).2 }
      = ringContents RING_BUFFER_SIZE st ++ xs ∧
    (writeSeq RING_BUFFER_SIZE st.buf st.wr xs).2 < RING_BUFFER_SIZE := by
  induction xs generalizing st with
  | nil =>
      refine ⟨?_, hw⟩
      rw [List.append_nil]
      rfl
  | cons x xs ih =>
      have hx1 : ringContents RING_BUFFER_SIZE
          { buf := fun j => if j = st.wr then x else st.buf j,
            rd := st.rd, wr := (st.wr + 1) % RING_BUFFER_SIZE }
          = ringContents RING_BUFFER_SIZE st ++ [x] := by
        apply write1_contents st x hr hw
        simp only [List.length_cons] at hfit
        omega
      have hav1 : ring_buffer_available RING_BUFFER_SIZE
          { buf := fun j => if j = st.wr then x else st.buf j,
            rd := st.rd, wr := (st.wr + 1) % RING_BUFFER_SIZE }
          = ring_buffer_available RING_BUFFER_SIZE st + 1 := by
        simp only [ring_buffer_available, RING_BUFFER_SIZE,
          List.length_cons] at hfit hr hw ⊢
        omega
      obtain ⟨ihc, ihw⟩ := ih
        { buf := fun j => if j = st.wr then x else st.buf j,
          rd := st.rd, wr := (st.wr + 1) % RING_BUFFER_SIZE }
        hr (Nat.mod_lt _ (by decide))
        (by rw [hav1]; simp only [List.length_cons] at hfit; omega)
      refine ⟨?_, ihw⟩
      rw [show writeSeq RING_BUFFER_SIZE st.buf st.wr (x :: xs)
          = writeSeq RING_BUFFER_SIZE
              (fun j => if j = st.wr then x else st.buf j)
              ((st.wr + 1) % RING_BUFFER_SIZE) xs from rfl]
      rw [ihc, hx1, List.append_assoc]
      rfl

/-- Under the no-drop side conditions neither the latency-cap branch nor the
overflow branch of the producer fires, so a push is exactly the write loop. -/
theorem audio_push_noDrop (maxBuf : Nat) (xs : List α) (st : Ring α)
    (hcap : ring_buffer_available RING_BUFFER_SIZE st ≤ maxBuf)
    (hfree : xs.length ≤ ring_buffer_free RING_BUFFER_SIZE st) :
    audio_push RING_BUFFER_SIZE maxBuf xs st
      = { buf := (writeSeq RING_BUFFER_SIZE st.buf st.wr xs).1, rd := st.rd,
          wr := (writeSeq RING_BUFFER_SIZE st.buf st.wr xs).2 } := by
  have h1 : ¬ maxBuf < ring_buffer_available RING_BUFFER_SIZE st := by omega
  have h2 : ¬ RING_BUFFER_SIZE - 1 -
      ring_buffer_available RING_BUFFER_SIZE st < xs.length := by
    simp only [ring_buffer_free] at hfree
    omega
  simp only [audio_push, if_neg h1, if_neg h2]

/-- Splitting the oldest slot off the queue contents: the head of the queue
is the slot under the read cursor. -/
theorem ringContents_cons (st : Ring α)
    (hr : st.rd < RING_BUFFER_SIZE) (hw : st.wr < RING_BUFFER_SIZE)
    (h1 : 1 ≤ ring_buffer_available RING_BUFFER_SIZE st) :
    ringContents RING_BUFFER_SIZE st
      = st.buf st.rd ::
        ringContents RING_BUFFER_SIZE
          { buf := st.buf, rd := (st.rd + 1) % RING_BUFFER_SIZE,
            wr := st.wr } := by
  have ha : ring_buffer_available RING_BUFFER_SIZE
      { buf := st.buf, rd := (st.rd + 1) % RING_BUFFER_SIZE, wr := st.wr }
      = ring_buffer_available RING_BUFFER_SIZE st - 1 := by
    simp only [ring_buffer_available, RING_BUFFER_SIZE] at h1 hr hw ⊢
    omega
  unfold ringContents
  rw [ha]
  obtain ⟨m, hm⟩ : ∃ m, ring_buffer_available RING_BUFFER_SIZE st = m + 1 :=
    ⟨ring_buffer_available RING_BUFFER_SIZE st - 1, by omega⟩
  rw [hm]
  simp only [Nat.add_sub_cancel]
  rw [List.range_succ_eq_map]
  simp only [List.map_cons, List.map_map]
  congr 1
  · rw [Nat.add_zero, Nat.mod_eq_of_lt hr]
  · apply List.map_congr_left
    intro i hi
    simp only [Function.comp_apply]
    congr 1
    simp only [RING_BUFFER_SIZE] at hr ⊢
    omega

/-- The consumer read loop returns exactly a prefix of the queue contents
and leaves the rest, never touching the write cursor. -/
theorem readPairs_spec (k : Nat) (st : Ring α)
    (hr : st.rd < RING_BUFFER_SIZE) (hw : st.wr < RING_BUFFER_SIZE) :
    (readPairs RING_BUFFER_SIZE st k).1
      = (ringContents RING_BUFFER_SIZE st).take
          (readPairs RING_BUFFER_SIZE st k).1.length ∧
    ringContents RING_BUFFER_SIZE (readPairs RING_BUFFER_SIZE st k).2
      = (ringContents RING_BUFFER_SIZE st).drop
          (readPairs RING_BUFFER_SIZE st k).1.length ∧
    (readPairs RING_BUFFER_SIZE st k).2.rd < RING_BUFFER_SIZE ∧
    (readPairs RING_BUFFER_SIZE st k).2.wr = st.wr := by
  induction k generalizing st with
  | zero => exact ⟨by simp [readPairs], by simp [readPairs], hr, rfl⟩
  | succ k ih =>
      by_cases h2 : 2 ≤ ring_buffer_available RING_BUFFER_SIZE st
      · have hrd1 : (st.rd + 1) % RING_BUFFER_SIZE < RING_BUFFER_SIZE :=
          Nat.mod_lt _ (by decide)
        have hrd2 : ((st.rd + 1) % RING_BUFFER_SIZE + 1) % RING_BUFFER_SIZE
            < RING_BUFFER_SIZE := Nat.mod_lt _ (by decide)
        have hc1 := ringContents_cons st hr hw (by omega)
        have hav1 : ring_buffer_available RING_BUFFER_SIZE
            { buf := st.buf, rd := (st.rd + 1) % RING_BUFFER_SIZE,
              wr := st.wr }
            = ring_buffer_available RING_BUFFER_SIZE st - 1 := by
          simp only [ring_buffer_available, RING_BUFFER_SIZE] at h2 hr hw ⊢
          omega
        have hc2 := ringContents_cons
          { buf := st.buf, rd := (st.rd + 1) % RING_BUFFER_SIZE,
            wr := st.wr } hrd1 hw (by rw [hav1]; omega)
        dsimp only at hc2
        obtain ⟨ih1, ih2, ih3, ih4⟩ := ih
          { buf := st.buf,
            rd := ((st.rd + 1) % RING_BUFFER_SIZE + 1) % RING_BUFFER_SIZE,
            wr := st.wr } hrd2 hw
        have hred : readPairs RING_BUFFER_SIZE st (k + 1)
            = (st.buf st.rd :: st.buf ((st.rd + 1) % RING_BUFFER_SIZE) ::
                (readPairs RING_BUFFER_SIZE
                  { buf := st.buf,
                    rd := ((st.rd + 1) % RING_BUFFER_SIZE + 1) %
                      RING_BUFFER_SIZE,
                    wr := st.wr } k).1,
               (readPairs RING_BUFFER_SIZE
                  { buf := st.buf,
                    rd := ((st.rd + 1) % RING_BUFFER_SIZE + 1) %
                      RING_BUFFER_SIZE,
                    wr := st.wr } k).2) := by
          simp only [readPairs, if_pos h2]
        rw [hred]
        dsimp only
        rw [hc1, hc2]
        simp only [List.length_cons, List.take_succ_cons,
          List.drop_succ_cons]
        exact ⟨by rw [← ih1], ih2, ih3, ih4⟩
      · have hred : readPairs RING_BUFFER_SIZE st (k + 1) = ([], st) := by
          simp only [readPairs, if_neg h2]
        rw [hred]
        exact ⟨by simp, by simp, hr, rfl⟩

/-- The queue contents have exactly `available` entries. -/
theorem ringContents_length (N : Nat) (st : Ring α) :
    (ringContents N st).length = ring_buffer_available N st := by
  simp [ringContents]

/-- Trace invariant: along any run whose pushes all fit and never see the
buffer above the latency cap, the samples consumed so far followed by the
samples still queued are exactly the samples pushed so far. -/
theorem runRing_fifo_aux (ops : List (RingOp α)) (maxBuf : Nat)
    (st : Ring α) (hr : st.rd < RING_BUFFER_SIZE)
    (hw : st.wr < RING_BUFFER_SIZE)
    (hnd : noDropB RING_BUFFER_SIZE maxBuf st ops = true) :
    (runRing RING_BUFFER_SIZE maxBuf st ops).2
        ++ ringContents RING_BUFFER_SIZE
          (runRing RING_BUFFER_SIZE maxBuf st ops).1
      = ringContents RING_BUFFER_SIZE st ++ pushedOf ops := by
  induction ops generalizing st with
  | nil => simp [runRing, pushedOf]
  | cons op ops ih =>
      cases op with
      | push xs =>
          simp only [noDropB, Bool.and_eq_true, decide_eq_true_eq] at hnd
          obtain ⟨⟨hfree, hcap⟩, hnd⟩ := hnd
          have hpush := audio_push_noDrop maxBuf xs st hcap hfree
          have hfit : ring_buffer_available RING_BUFFER_SIZE st + xs.length
              ≤ RING_BUFFER_SIZE - 1 := by
            simp only [ring_buffer_free] at hfree
            have := ring_buffer_available_lt RING_BUFFER_SIZE
              (by decide) st
            omega
          obtain ⟨hwc, hww⟩ := writeSeq_contents xs st hr hw hfit
          have hihyp := ih (audio_push RING_BUFFER_SIZE maxBuf xs st)
            (by rw [hpush]; exact hr) (by rw [hpush]; exact hww) hnd
          simp only [runRing, pushedOf]
          rw [hihyp, hpush, hwc, List.append_assoc]
      | pop n =>
          simp only [noDropB] at hnd
          obtain ⟨hp1, hp2, hp3, hp4⟩ := readPairs_spec n st hr hw
          have hihyp := ih (readPairs RING_BUFFER_SIZE st n).2 hp3
            (by rw [hp4]; exact hw) hnd
          simp only [runRing, pushedOf]
          rw [List.append_assoc, hihyp, hp2, ← List.append_assoc]
          have hjoin : (readPairs RING_BUFFER_SIZE st n).1 ++
              (ringContents RING_BUFFER_SIZE st).drop
                (readPairs RING_BUFFER_SIZE st n).1.length
              = ringContents RING_BUFFER_SIZE st := by
            nth_rewrite 1 [hp1]
            exact List.take_append_drop _ _
          rw [hjoin]

/-! ### Helper lemmas for the rate detector -/

/-- A steady-state batch inside the 120-frame monitoring window only
accumulates the monitor sample counter. -/
theorem rate_detect_batch_steady_calm (st : RateDet) (f : Int)
    (hdet : st.rateDetected = true)
    (h120 : st.videoFramesTotal - st.monitorFrames < 120) :
    rate_detect_batch f st =
      ({ st with monitorSamples := st.monitorSamples + f }, false) := by
  unfold rate_detect_batch
  rw [hdet]
  simp only [eq_self_iff_true, if_true]
  rw [if_neg (show ¬ (120 : Int) ≤ st.videoFramesTotal - st.monitorFrames by
    omega)]

/-- A steady-state batch closing the monitoring window with a changed
classification after an expired cooldown triggers reinitialisation. -/
theorem rate_detect_batch_steady_trig (st : RateDet) (f : Int)
    (hdet : st.rateDetected = true)
    (h120 : 120 ≤ st.videoFramesTotal - st.monitorFrames)
    (hre : classify_sample_rate
        ((st.monitorSamples + f : Int) /
          ((st.videoFramesTotal - st.monitorFrames : Int) : ℚ)) ≠
      st.detectedRate)
    (hcool : 180 < st.videoFramesTotal - st.framesSinceReinit) :
    rate_detect_batch f st =
      ({ st with monitorSamples := 0, monitorFrames := st.videoFramesTotal,
                 detectedRate := classify_sample_rate
                   ((st.monitorSamples + f : Int) /
                     ((st.videoFramesTotal - st.monitorFrames : Int) : ℚ)),
                 framesSinceReinit := st.videoFramesTotal }, true) := by
  unfold rate_detect_batch
  rw [hdet]
  simp only [eq_self_iff_true, if_true]
  rw [if_pos h120,
    if_pos (show (0 : Int) < st.videoFramesTotal - st.monitorFrames by omega),
    if_pos ⟨hre, hcool⟩]

/-- A steady-state batch closing the monitoring window without both a changed
classification and an expired cooldown resets the window and nothing else. -/
theorem rate_detect_batch_steady_notrig (st : RateDet) (f : Int)
    (hdet : st.rateDetected = true)
    (h120 : 120 ≤ st.videoFramesTotal - st.monitorFrames)
    (hre : ¬(classify_sample_rate
        ((st.monitorSamples + f : Int) /
          ((st.videoFramesTotal - st.monitorFrames : Int) : ℚ)) ≠
        st.detectedRate ∧
      180 < st.videoFramesTotal - st.framesSinceReinit)) :
    rate_detect_batch f st =
      ({ st with monitorSamples := 0,
                 monitorFrames := st.videoFramesTotal }, false) := by
  unfold rate_detect_batch
  rw [hdet]
  simp only [eq_self_iff_true, if_true]
  rw [if_pos h120,
    if_pos (show (0 : Int) < st.videoFramesTotal - st.monitorFrames by omega),
    if_neg hre]

/-- C5: the sample-rate classifier is a total function onto exactly the four
canonical rates; inputs above 1600 map to 131072 Hz, inputs in (850, 1600]
to 65536 Hz, inputs in (650, 850] to 48000 Hz, and all other inputs to
32768 Hz. -/
theorem classify_sample_rate_buckets (x : ℚ) :
    (1600 < x → classify_sample_rate x = 131072) ∧
    (850 < x → x ≤ 1600 → classify_sample_rate x = 65536) ∧
    (650 < x → x ≤ 850 → classify_sample_rate x = 48000) ∧
    (x ≤ 650 → classify_sample_rate x = 32768) ∧
    (classify_sample_rate x = 131072 ∨ classify_sample_rate x = 65536 ∨
      classify_sample_rate x = 48000 ∨ classify_sample_rate x = 32768) := by
  unfold classify_sample_rate
  refine ⟨?_, ?_, ?_, ?_, ?_⟩ <;> split_ifs <;> intros <;>
    first
      | rfl
      | (exfalso; linarith)
      | simp

/-- Witness for C5: the classifier evaluated once in each bucket. -/
theorem classify_sample_rate_buckets_witness :
    classify_sample_rate 2194 = 131072 ∧ classify_sample_rate 1097 = 65536 ∧
    classify_sample_rate 804 = 48000 ∧ classify_sample_rate 549 = 32768 :=
  ⟨(classify_sample_rate_buckets 2194).1 (by decide),
   (classify_sample_rate_buckets 1097).2.1 (by decide) (by decide),
   (classify_sample_rate_buckets 804).2.2.1 (by decide) (by decide),
   (classify_sample_rate_buckets 549).2.2.2.1 (by decide)⟩

/-- C6: during warm-up the detector commits a rate and transitions to steady
monitoring at the first audio batch seeing at least 15 video frames; the
synthetic constant streams at 1097 and 549 samples per video frame (with an
out-of-range reported rate, so the measured classification is used) yield
detected rates 65536 and 32768; and at the commit the externally reported
nominal rate is preferred over the measured classification exactly when it
lies within 8 kHz and 192 kHz. -/
theorem rate_detector_warmup_commit :
    (feedDet 1097 15 (detInit 0)).rateDetected = true ∧
    (feedDet 1097 15 (detInit 0)).detectedRate = 65536 ∧
    (feedDet 549 15 (detInit 0)).rateDetected = true ∧
    (feedDet 549 15 (detInit 0)).detectedRate = 32768 ∧
    (∀ (st : RateDet) (f : Int), st.rateDetected = false →
      15 ≤ st.videoFramesTotal →
      (rate_detect_batch f st).1.rateDetected = true ∧
      (8000 ≤ st.reportedRate ∧ st.reportedRate ≤ 192000 →
        (rate_detect_batch f st).1.detectedRate = st.reportedRate) ∧
      (¬(8000 ≤ st.reportedRate ∧ st.reportedRate ≤ 192000) →
        (rate_detect_batch f st).1.detectedRate =
          classify_sample_rate
            ((st.detectionSamples + f : Int) / (st.videoFramesTotal : ℚ)))) := by
  have h1097 : (feedDet 1097 15 (detInit 0)).rateDetected = true ∧
      (feedDet 1097 15 (detInit 0)).detectedRate = 65536 := by
    norm_num [feedDet, rate_detect_batch, video_refresh, detInit,
      classify_sample_rate]
  have h549 : (feedDet 549 15 (detInit 0)).rateDetected = true ∧
      (feedDet 549 15 (detInit 0)).detectedRate = 32768 := by
    norm_num [feedDet, rate_detect_batch, video_refresh, detInit,
      classify_sample_rate]
  refine ⟨h1097.1, h1097.2, h549.1, h549.2, ?_⟩
  intro st f hdet h15
  have h0 : (0 : Int) < st.videoFramesTotal := by omega
  refine ⟨?_, ?_, ?_⟩
  · simp [rate_detect_batch, hdet, h15]
  · intro hr
    simp [rate_detect_batch, hdet, h15, hr]
  · intro hr
    simp [rate_detect_batch, hdet, h15, hr, h0]

/-- Witness for C6: the commit step applied to two concrete warm-up states
seeing their 15th video frame, one with an in-range reported rate (preferred)
and one with reported rate 0 (measured classification used). -/
theorem rate_detector_warmup_commit_witness :
    (rate_detect_batch 1097
      { rateDetected := false, detectionSamples := 15358,
        videoFramesTotal := 15, detectedRate := 0, reportedRate := 32768,
        framesSinceReinit := 0, monitorFrames := 0,
        monitorSamples := 0 }).1.detectedRate = 32768 ∧
    (rate_detect_batch 1097
      { rateDetected := false, detectionSamples := 15358,
        videoFramesTotal := 15, detectedRate := 0, reportedRate := 0,
        framesSinceReinit := 0, monitorFrames := 0,
        monitorSamples := 0 }).1.rateDetected = true :=
  ⟨(rate_detector_warmup_commit.2.2.2.2 _ 1097 rfl (by decide)).2.1
      (by decide),
   (rate_detector_warmup_commit.2.2.2.2 _ 1097 rfl (by decide)).1⟩

/-- C7: in the steady monitoring state the detector only re-evaluates at the
end of a 120-video-frame window (otherwise the batch only accumulates the
monitor sample counter and changes nothing else), a reinitialisation is
triggered only when the newly classified rate differs from the detected rate
and at least 180 video frames have elapsed since the last
reinitialisation, and a triggered reinitialisation resets the cooldown
counter (frames-since-reinit restarts at the current video frame). -/
theorem rate_detector_steady_monitor (st : RateDet) (f : Int)
    (hdet : st.rateDetected = true) :
    (st.videoFramesTotal - st.monitorFrames < 120 →
      (rate_detect_batch f st).2 = false ∧
      (rate_detect_batch f st).1.detectedRate = st.detectedRate ∧
      (rate_detect_batch f st).1.framesSinceReinit = st.framesSinceReinit ∧
      (rate_detect_batch f st).1.monitorFrames = st.monitorFrames ∧
      (rate_detect_batch f st).1.monitorSamples = st.monitorSamples + f) ∧
    ((rate_detect_batch f st).2 = true →
      120 ≤ st.videoFramesTotal - st.monitorFrames ∧
      classify_sample_rate
          ((st.monitorSamples + f : Int) /
            ((st.videoFramesTotal - st.monitorFrames : Int) : ℚ)) ≠
        st.detectedRate ∧
      180 ≤ st.videoFramesTotal - st.framesSinceReinit ∧
      (rate_detect_batch f st).1.framesSinceReinit = st.videoFramesTotal ∧
      (rate_detect_batch f st).1.detectedRate =
        classify_sample_rate
          ((st.monitorSamples + f : Int) /
            ((st.videoFramesTotal - st.monitorFrames : Int) : ℚ))) ∧
    ((rate_detect_batch f st).2 = false →
      (rate_detect_batch f st).1.detectedRate = st.detectedRate ∧
      (rate_detect_batch f st).1.framesSinceReinit = st.framesSinceReinit) := by
  rcases lt_or_le (st.videoFramesTotal - st.monitorFrames) 120 with h120 | h120
  · rw [rate_detect_batch_steady_calm st f hdet h120]
    exact ⟨fun _ => ⟨rfl, rfl, rfl, rfl, rfl⟩,
      fun h => absurd h (by simp), fun _ => ⟨rfl, rfl⟩⟩
  · by_cases hre : classify_sample_rate
        ((st.monitorSamples + f : Int) /
          ((st.videoFramesTotal - st.monitorFrames : Int) : ℚ)) ≠
        st.detectedRate ∧ 180 < st.videoFramesTotal - st.framesSinceReinit
    · rw [rate_detect_batch_steady_trig st f hdet h120 hre.1 hre.2]
      exact ⟨fun h => absurd h120 (by omega),
        fun _ => ⟨h120, hre.1, by omega, rfl, rfl⟩,
        fun h => absurd h (by simp)⟩
    · rw [rate_detect_batch_steady_notrig st f hdet h120 hre]
      exact ⟨fun h => absurd h120 (by omega),
        fun h => absurd h (by simp), fun _ => ⟨rfl, rfl⟩⟩

/-- Witness for C7: a steady-state batch arriving 40 video frames into the
monitoring window changes nothing but the monitor sample counter. -/
theorem rate_detector_steady_monitor_witness :
    (rate_detect_batch 800
      { rateDetected := true, detectionSamples := 16455,
        videoFramesTotal := 160, detectedRate := 65536,
        reportedRate := 0, framesSinceReinit := 15, monitorFrames := 120,
        monitorSamples := 3000 }).2 = false ∧
    (rate_detect_batch 800
      { rateDetected := true, detectionSamples := 16455,
        videoFramesTotal := 160, detectedRate := 65536,
        reportedRate := 0, framesSinceReinit := 15, monitorFrames := 120,
        monitorSamples := 3000 }).1.monitorSamples = 3000 + 800 :=
  ⟨((rate_detector_steady_monitor _ 800 rfl).1 (by decide)).1,
   ((rate_detector_steady_monitor _ 800 rfl).1 (by decide)).2.2.2.2⟩

/-- C1: the rewind store is LIFO with overwrite-oldest on overflow.  With
capacity 5, pushing the 7 distinct snapshots 1..7 and popping 6 times
restores 7, 6, 5, 4, 3 and then fails; more generally a pop immediately
after pushing a list of at most `capacity` snapshots restores the last
snapshot pushed, and pushing `capacity + 1` distinct snapshots leaves
`count = capacity` with the first snapshot no longer stored anywhere. -/
theorem rewind_store_lifo :
    (rewind_popN (fun _ => true)
        (rewind_pushAll (rewind_empty 5 (0 : Nat)) [1, 2, 3, 4, 5, 6, 7])
        6).1
      = [(0, some 7), (0, some 6), (0, some 5), (0, some 4), (0, some 3),
         (-1, none)] ∧
    (∀ (σ : Type) (cap : Nat) (dflt : σ) (desOk : σ → Bool) (l : List σ),
      0 < cap → ∀ hne : l ≠ [], l.length ≤ cap → (∀ s, desOk s = true) →
      (rewind_pop desOk (rewind_pushAll (rewind_empty cap dflt) l)).1 = 0 ∧
      (rewind_pop desOk (rewind_pushAll (rewind_empty cap dflt) l)).2.2
        = some (l.getLast hne)) ∧
    (∀ (σ : Type) (cap : Nat) (dflt : σ) (l : List σ),
      0 < cap → ∀ hlen : l.length = cap + 1, l.Nodup →
      (rewind_pushAll (rewind_empty cap dflt) l).count = cap ∧
      (∀ j, j < cap →
        ¬ (rewind_pushAll (rewind_empty cap dflt) l).snapshots j
          = l.get ⟨0, by omega⟩)) := by
  refine ⟨by decide, ?_, ?_⟩
  · intro σ cap dflt desOk l hcap hne hlen hdes
    rcases List.eq_nil_or_concat l with h | ⟨l1, a, hsplit⟩
    · exact absurd h hne
    · rw [List.concat_eq_append] at hsplit
      subst hsplit
      rw [rewind_pushAll_concat]
      have hgl : (l1 ++ [a]).getLast hne = a := by
        rw [List.getLast_append' l1 [a] (List.cons_ne_nil a [])]
        rfl
      rw [hgl]
      exact rewind_pop_push desOk _ a
        (by rw [rewind_pushAll_capacity]; exact hcap)
        (by
          rw [show (rewind_pushAll (rewind_empty cap dflt) l1).capacity
              = cap from rewind_pushAll_capacity l1 (rewind_empty cap dflt)]
          exact rewind_pushAll_head_lt l1 (rewind_empty cap dflt) hcap hcap)
        (hdes a)
  · intro σ cap dflt l hcap hlen hnd
    rcases List.eq_nil_or_concat l with h | ⟨l1, z, hsplit⟩
    · rw [h] at hlen
      exact absurd hlen (by simp)
    · rw [List.concat_eq_append] at hsplit
      subst hsplit
      have hlen1 : l1.length = cap := by
        rw [List.length_append, List.length_singleton] at hlen
        omega
      rw [rewind_pushAll_concat]
      obtain ⟨hhead, hcount, hslots, hother⟩ :=
        rewind_pushAll_fill l1 (rewind_empty cap dflt) hcap hcap
          (Nat.zero_le cap) (by show 0 + l1.length ≤ cap; omega)
      have hh0 : (rewind_pushAll (rewind_empty cap dflt) l1).head = 0 := by
        rw [hhead]
        show (0 + l1.length) % cap = 0
        rw [Nat.zero_add, hlen1, Nat.mod_self]
      have hcnt1 : (rewind_pushAll (rewind_empty cap dflt) l1).count
          = cap := by
        rw [hcount]
        show min (0 + l1.length) cap = cap
        rw [Nat.zero_add, hlen1]
        exact Nat.min_self cap
      have hcap1 : (rewind_pushAll (rewind_empty cap dflt) l1).capacity
          = cap := rewind_pushAll_capacity l1 (rewind_empty cap dflt)
      have hnodup : l1.Nodup ∧ z ∉ l1 := by
        rw [List.nodup_append] at hnd
        exact ⟨hnd.1, fun hmem => hnd.2.2 hmem (List.mem_singleton.mpr rfl)⟩
      have hget0 : (l1 ++ [z]).get ⟨0, by omega⟩ = l1.get ⟨0, by omega⟩ :=
        List.get_append 0 (by omega)
      constructor
      · have ecnt : (rewind_push (rewind_pushAll (rewind_empty cap dflt) l1)
            z).count
            = if (rewind_pushAll (rewind_empty cap dflt) l1).count
                < (rewind_pushAll (rewind_empty cap dflt) l1).capacity then
                (rewind_pushAll (rewind_empty cap dflt) l1).count + 1
              else (rewind_pushAll (rewind_empty cap dflt) l1).count := rfl
        rw [ecnt, hcnt1, hcap1, if_neg (Nat.lt_irrefl cap)]
      · intro j hj
        rw [hget0]
        have esnap : (rewind_push (rewind_pushAll (rewind_empty cap dflt) l1)
            z).snapshots j
            = if j = (rewind_pushAll (rewind_empty cap dflt) l1).head then z
              else (rewind_pushAll (rewind_empty cap dflt) l1).snapshots
                j := rfl
        rw [esnap, hh0]
        by_cases hj0 : j = 0
        · rw [if_pos hj0]
          intro hzeq
          exact hnodup.2 (hzeq ▸ List.get_mem l1 0 (by omega))
        · rw [if_neg hj0]
          have hsl := hslots j (by omega)
          rw [show (rewind_empty cap dflt : RewindStore σ).head + j = j from
            Nat.zero_add j] at hsl
          rw [hsl]
          intro heqget
          have := (List.Nodup.get_inj_iff hnodup.1).mp heqget
          exact hj0 (by
            have := congrArg Fin.val this
            simpa using this)

/-- Witness for C1: the two universally quantified parts applied at capacity
3 with the push lists [10, 20] (pop restores 20) and [10, 20, 30, 40]
(count stays 3 and snapshot 10 is overwritten in slot 0). -/
theorem rewind_store_lifo_witness :
    (rewind_pop (fun _ => true)
        (rewind_pushAll (rewind_empty 3 (0 : Nat)) [10, 20])).2.2
      = some ([10, 20].getLast (by decide)) ∧
    (rewind_pushAll (rewind_empty 3 (0 : Nat)) [10, 20, 30, 40]).count
      = 3 ∧
    ¬ (rewind_pushAll (rewind_empty 3 (0 : Nat))
        [10, 20, 30, 40]).snapshots 1 = [10, 20, 30, 40].get ⟨0, by decide⟩ :=
  ⟨(rewind_store_lifo.2.1 Nat 3 0 (fun _ => true) [10, 20] (by decide)
      (by decide) (by decide) (fun s => rfl)).2,
   (rewind_store_lifo.2.2 Nat 3 0 [10, 20, 30, 40] (by decide) (by decide)
      (by decide)).1,
   (rewind_store_lifo.2.2 Nat 3 0 [10, 20, 30, 40] (by decide) (by decide)
      (by decide)).2 1 (by decide)⟩

/-- C8 (amended): popping fails with result `-1` whenever `count == 0`, and
a pop that fails for that reason leaves head, count and every stored
snapshot exactly as they were.  (A pop that fails because deserialization
rejects the snapshot has, as in the C code, already moved `head` back and
decremented `count`; see the counterexample.) -/
theorem rewind_pop_empty_fails_unchanged {σ : Type} (desOk : σ → Bool)
    (st : RewindStore σ) (h : st.count = 0) :
    rewind_pop desOk st = (-1, st, none) := by
  unfold rewind_pop
  rw [if_pos h]

/-- Witness for C8: popping a freshly initialised store of capacity 5 fails
and returns it untouched. -/
theorem rewind_pop_empty_fails_unchanged_witness :
    rewind_pop (fun _ => true) (rewind_empty 5 (0 : Nat))
      = (-1, rewind_empty 5 (0 : Nat), none) :=
  rewind_pop_empty_fails_unchanged (fun _ => true) (rewind_empty 5 0) rfl

/-- Counterexample for C8 as stated: a pop that fails because
deserialization rejects the snapshot (modelled by a deserializer that
always fails) still returns `-1` but has decremented `count` from 1 to 0,
so not every failing pop leaves the store unchanged. -/
theorem rewind_pop_fail_mutates_counterexample :
    (rewind_pop (fun _ => false)
        (rewind_push (rewind_empty 1 (0 : Nat)) 42)).1 = -1 ∧
    (rewind_push (rewind_empty 1 (0 : Nat)) 42).count = 1 ∧
    (rewind_pop (fun _ => false)
        (rewind_push (rewind_empty 1 (0 : Nat)) 42)).2.1.count = 0 := by
  refine ⟨by decide, by decide, by decide⟩

/-- C2 (amended): on the code's ring of `RING_BUFFER_SIZE` slots, for every
sequence of producer pushes and consumer pops in which every push finds room
for its whole batch (the buffered amount never exceeds capacity − 1) and the
buffered amount never exceeds the adaptive latency cap `maxBuf` (so the
skip-ahead drop never fires either), the consumer reads back exactly the
samples that were pushed, in push order: the samples read are a prefix of
the pushed stream and the samples still queued are the matching suffix.
The cap condition is necessary: see the counterexample for the claim
without it. -/
theorem ringbuffer_fifo {α : Type} (dflt : α) (maxBuf : Nat)
    (ops : List (RingOp α))
    (hnd : noDropB RING_BUFFER_SIZE maxBuf (ringInit dflt) ops = true) :
    (runRing RING_BUFFER_SIZE maxBuf (ringInit dflt) ops).2
      = (pushedOf ops).take
          (runRing RING_BUFFER_SIZE maxBuf (ringInit dflt) ops).2.length ∧
    ringContents RING_BUFFER_SIZE
        (runRing RING_BUFFER_SIZE maxBuf (ringInit dflt) ops).1
      = (pushedOf ops).drop
          (runRing RING_BUFFER_SIZE maxBuf (ringInit dflt) ops).2.length := by
  have h := runRing_fifo_aux ops maxBuf (ringInit dflt)
    (by show 0 < RING_BUFFER_SIZE; decide)
    (by show 0 < RING_BUFFER_SIZE; decide) hnd
  rw [ringContents_init, List.nil_append] at h
  constructor
  · rw [← h, List.take_left]
  · rw [← h, List.drop_left]

/-- Witness for C2: a push of two samples followed by a pop of one pair
reads back exactly the two samples pushed. -/
theorem ringbuffer_fifo_witness :
    (runRing RING_BUFFER_SIZE 2048 (ringInit (0 : Nat))
        [RingOp.push [5, 6], RingOp.pop 1]).2
      = (pushedOf [RingOp.push [5, 6], RingOp.pop 1]).take
          (runRing RING_BUFFER_SIZE 2048 (ringInit (0 : Nat))
            [RingOp.push [5, 6], RingOp.pop 1]).2.length :=
  (ringbuffer_fifo 0 2048 [RingOp.push [5, 6], RingOp.pop 1]
    (by decide)).1

/-- Evaluation of the capped second push of the counterexample trace: with
2049 slots buffered and the cap at 2048, the push of one more sample skips
the read cursor ahead to 1025. -/
theorem audio_push_capped_step (B : Nat → Nat) :
    audio_push RING_BUFFER_SIZE 2048 [7]
      { buf := B, rd := 0, wr := 2049 }
      = { buf := fun j => if j = 2049 then (7 : Nat) else B j, rd := 1025,
          wr := 2050 } := by
  norm_num [audio_push, ring_buffer_available, writeSeq, RING_BUFFER_SIZE]

/-- Evaluation of the pop of the counterexample trace: the consumer reads
the pair at slots 1025 and 1026. -/
theorem readPairs_capped_step (B : Nat → Nat) :
    readPairs RING_BUFFER_SIZE
      { buf := fun j => if j = 2049 then (7 : Nat) else B j, rd := 1025,
        wr := 2050 } 1
      = ([B 1025, B 1026],
         { buf := fun j => if j = 2049 then (7 : Nat) else B j, rd := 1027,
           wr := 2050 }) := by
  norm_num [readPairs, ring_buffer_available, RING_BUFFER_SIZE]

/-- Counterexample for C2 as stated: with the code's capacity
(`RING_BUFFER_SIZE = 32768`) and the smallest adaptive latency cap the code
can produce (`max_buffered = 2048`, its hard floor), pushing 2049 samples
and then one more — 2050 in total, far below capacity − 1, so the claim's
no-overflow side condition holds throughout the trace — trips the
latency-cap skip-ahead, and the first pair the consumer then reads is
`[1025, 1026]`, not the first two samples pushed: the consumer does not
read back the pushed samples in order. -/
theorem ringbuffer_fifo_counterexample :
    boundedB RING_BUFFER_SIZE 2048 0 (ringInit (0 : Nat))
        [RingOp.push (List.range 2049), RingOp.push [7], RingOp.pop 1]
      = true ∧
    (runRing RING_BUFFER_SIZE 2048 (ringInit (0 : Nat))
        [RingOp.push (List.range 2049), RingOp.push [7], RingOp.pop 1]).2
      = [1025, 1026] ∧
    ¬ (runRing RING_BUFFER_SIZE 2048 (ringInit (0 : Nat))
        [RingOp.push (List.range 2049), RingOp.push [7], RingOp.pop 1]).2
      = (pushedOf [RingOp.push (List.range 2049), RingOp.push [7],
            RingOp.pop 1]).take
          (runRing RING_BUFFER_SIZE 2048 (ringInit (0 : Nat))
            [RingOp.push (List.range 2049), RingOp.push [7],
              RingOp.pop 1]).2.length := by
  have hav0 : ring_buffer_available RING_BUFFER_SIZE (ringInit (0 : Nat))
      = 0 := by decide
  have hr0 : (ringInit (0 : Nat)).rd < RING_BUFFER_SIZE := by decide
  have hw0 : (ringInit (0 : Nat)).wr < RING_BUFFER_SIZE := by decide
  -- the first push fits and neither drop branch fires
  have hpush1 : audio_push RING_BUFFER_SIZE 2048 (List.range 2049)
      (ringInit (0 : Nat))
      = { buf := (writeSeq RING_BUFFER_SIZE (ringInit (0 : Nat)).buf
            (ringInit (0 : Nat)).wr (List.range 2049)).1,
          rd := (ringInit (0 : Nat)).rd,
          wr := (writeSeq RING_BUFFER_SIZE (ringInit (0 : Nat)).buf
            (ringInit (0 : Nat)).wr (List.range 2049)).2 } := by
    apply audio_push_noDrop
    · rw [hav0]
      omega
    · show List.length (List.range 2049) ≤ _
      rw [List.length_range]
      show 2049 ≤ ring_buffer_free RING_BUFFER_SIZE (ringInit (0 : Nat))
      rw [ring_buffer_free, hav0]
      decide
  obtain ⟨hc1, hw1⟩ := writeSeq_contents (List.range 2049)
    (ringInit (0 : Nat)) hr0 hw0
    (by rw [hav0, List.length_range]; decide)
  rw [ringContents_init, List.nil_append] at hc1
  -- name the write-loop results, keeping them opaque from here on
  generalize hB : (writeSeq RING_BUFFER_SIZE (ringInit (0 : Nat)).buf
      (ringInit (0 : Nat)).wr (List.range 2049)).1 = B at hc1
  generalize hW : (writeSeq RING_BUFFER_SIZE (ringInit (0 : Nat)).buf
      (ringInit (0 : Nat)).wr (List.range 2049)).2 = W at hc1 hw1
  rw [show (ringInit (0 : Nat)).rd = 0 from rfl] at hc1
  -- the write cursor after the first push is 2049
  have hW2049 : W = 2049 := by
    have hl := ringContents_length RING_BUFFER_SIZE
      { buf := B, rd := 0, wr := W }
    rw [hc1, List.length_range] at hl
    simp only [ring_buffer_available, RING_BUFFER_SIZE] at hl hw1
    omega
  subst hW2049
  -- the slots written by the first push hold 0, 1, ..., 2048 in order
  have hpt : ∀ (i : Nat), i < 2049 →
      B ((0 + i) % RING_BUFFER_SIZE) = i := by
    intro i hi
    have hg : (ringContents RING_BUFFER_SIZE
        { buf := B, rd := 0, wr := 2049 })[i]?
        = (List.range 2049)[i]? := by rw [hc1]
    unfold ringContents at hg
    rw [show ring_buffer_available RING_BUFFER_SIZE
        { buf := B, rd := 0, wr := 2049 } = 2049 from by
          norm_num [ring_buffer_available, RING_BUFFER_SIZE],
      List.getElem?_map, List.getElem?_range hi, Option.map_some'] at hg
    exact Option.some.inj hg
  -- state after the first push, with concrete cursors
  have hst1 : audio_push RING_BUFFER_SIZE 2048 (List.range 2049)
      (ringInit (0 : Nat)) = { buf := B, rd := 0, wr := 2049 } := by
    rw [hpush1, hB, hW]
    rfl
  -- the second push trips the latency cap: the read cursor jumps to 1025
  have hst2 := audio_push_capped_step B
  -- the pop then reads the pair at slots 1025 and 1026
  have hread := readPairs_capped_step B
  have hv25 : B 1025 = 1025 := by
    have := hpt 1025 (by omega)
    norm_num [RING_BUFFER_SIZE] at this
    exact this
  have hv26 : B 1026 = 1026 := by
    have := hpt 1026 (by omega)
    norm_num [RING_BUFFER_SIZE] at this
    exact this
  have hout : (runRing RING_BUFFER_SIZE 2048 (ringInit (0 : Nat))
      [RingOp.push (List.range 2049), RingOp.push [7], RingOp.pop 1]).2
      = [1025, 1026] := by
    simp only [runRing, hst1, hst2, hread, List.append_nil]
    rw [hv25, hv26]
  refine ⟨?_, hout, ?_⟩
  · -- the no-overflow side condition holds along the whole trace
    simp only [boundedB, List.length_range]
    decide
  · intro heq
    rw [hout] at heq
    have hg := congrArg (fun l : List Nat => l[0]?) heq
    simp only [pushedOf, List.append_nil, List.length_cons,
      List.length_nil] at hg
    rw [List.getElem?_take_of_lt (by omega : (0 : Nat) < 0 + 1 + 1),
      List.getElem?_append_left (by rw [List.length_range]; omega),
      List.getElem?_range (by omega : (0 : Nat) < 2049)] at hg
    simp at hg

/-- C3: for every sequence of ring-buffer pushes and pops — including
sequences whose pushes exceed the capacity — the reported available count
never exceeds `capacity − 1` (the reserved-slot invariant), and the free
space always equals `capacity − 1 − available`. -/
theorem ring_reserved_slot_invariant {α : Type} (N maxBuf : Nat)
    (hN : 1 ≤ N) (dflt : α) (ops : List (RingOp α)) :
    ring_buffer_available N (runRing N maxBuf (ringInit dflt) ops).1
      ≤ N - 1 ∧
    ring_buffer_free N (runRing N maxBuf (ringInit dflt) ops).1
      = N - 1 -
        ring_buffer_available N (runRing N maxBuf (ringInit dflt) ops).1 := by
  refine ⟨?_, rfl⟩
  have h := ring_buffer_available_lt N (by omega)
    (runRing N maxBuf (ringInit dflt) ops).1
  omega

/-- Witness for C3: a ring of 4 slots receiving a 5-sample batch (exceeding
its capacity) still reports at most 3 available slots. -/
theorem ring_reserved_slot_invariant_witness :
    ring_buffer_available 4 (runRing 4 2048 (ringInit (0 : Nat))
        [RingOp.push [1, 2, 3, 4, 5]]).1 ≤ 3 ∧
    ring_buffer_free 4 (runRing 4 2048 (ringInit (0 : Nat))
        [RingOp.push [1, 2, 3, 4, 5]]).1
      = 3 - ring_buffer_available 4 (runRing 4 2048 (ringInit (0 : Nat))
        [RingOp.push [1, 2, 3, 4, 5]]).1 :=
  ring_reserved_slot_invariant 4 2048 (by decide) 0
    [RingOp.push [1, 2, 3, 4, 5]]

set_option maxRecDepth 2000 in
/-- C4: a ring of capacity 16 receiving 20 pushes (one slot each, one per
stereo pair) with no consumer draining ends with `available = 15`
(capacity − 1), the read cursor advanced from 0 to 5 — dropping the 5
oldest entries 1..5 — and exactly the 15 most recently pushed entries 6..20
retained, in order. -/
theorem ring_overflow_drop_oldest :
    ring_buffer_available 16
        (runRing 16 2048 (ringInit (0 : Nat))
          ((List.range 20).map (fun k => RingOp.push [k + 1]))).1 = 15 ∧
    (runRing 16 2048 (ringInit (0 : Nat))
        ((List.range 20).map (fun k => RingOp.push [k + 1]))).1.rd = 5 ∧
    ringContents 16
        (runRing 16 2048 (ringInit (0 : Nat))
          ((List.range 20).map (fun k => RingOp.push [k + 1]))).1
      = [6, 7, 8, 9, 10, 11, 12, 13, 14, 15, 16, 17, 18, 19, 20] ∧
    (∀ s ∈ [1, 2, 3, 4, 5], ¬ s ∈ ringContents 16
        (runRing 16 2048 (ringInit (0 : Nat))
          ((List.range 20).map (fun k => RingOp.push [k + 1]))).1) := by
  refine ⟨by decide, by decide, by decide, by decide⟩

set_option maxRecDepth 2000 in
/-- Witness for C4: snapshot 3, one of the five oldest pushed entries, is
no longer in the buffer after the 20 pushes. -/
theorem ring_overflow_drop_oldest_witness :
    ¬ (3 : Nat) ∈ ringContents 16
        (runRing 16 2048 (ringInit (0 : Nat))
          ((List.range 20).map (fun k => RingOp.push [k + 1]))).1 :=
  ring_overflow_drop_oldest.2.2.2 3 (by decide)

/-- Accounting of the catch-up loop: it runs at most `fuel` frames and
decrements the accumulator by exactly the target duration per frame run. -/
theorem catch_up_spec (t : Nat) : ∀ (fuel accum : Nat),
    (catch_up t fuel accum).2 ≤ fuel ∧
    (catch_up t fuel accum).1 + (catch_up t fuel accum).2 * t = accum
  | 0, accum => ⟨Nat.le_refl 0, by simp [catch_up]⟩
  | fuel + 1, accum => by
      by_cases h : t ≤ accum
      · obtain ⟨ih1, ih2⟩ := catch_up_spec t fuel (accum - t)
        simp only [catch_up, if_pos h]
        refine ⟨by omega, ?_⟩
        rw [Nat.add_mul, Nat.one_mul]
        omega
      · simp only [catch_up, if_neg h]
        exact ⟨Nat.zero_le _, by simp⟩

/-- C9: each frame-scheduler iteration runs at most 8 emulation frames,
each executed frame decrements the accumulator by exactly the target frame
duration `BASE_FRAME_NS * 100 / speed` with the speed clamped to at least
25, and an accumulator still exceeding 10 targets after the catch-up loop
is reset to zero instead of being carried forward. -/
theorem frame_scheduler_catchup (speed_pct accum : Nat) :
    (catch_up (target_frame_ns speed_pct) 8 accum).2 ≤ 8 ∧
    (catch_up (target_frame_ns speed_pct) 8 accum).1
        + (catch_up (target_frame_ns speed_pct) 8 accum).2 *
          target_frame_ns speed_pct = accum ∧
    (sched_iter speed_pct accum).2
      = (catch_up (target_frame_ns speed_pct) 8 accum).2 ∧
    (target_frame_ns speed_pct * 10
        < (catch_up (target_frame_ns speed_pct) 8 accum).1 →
      (sched_iter speed_pct accum).1 = 0) ∧
    ((catch_up (target_frame_ns speed_pct) 8 accum).1
        ≤ target_frame_ns speed_pct * 10 →
      (sched_iter speed_pct accum).1
        = (catch_up (target_frame_ns speed_pct) 8 accum).1) ∧
    (25 ≤ speed_pct →
      target_frame_ns speed_pct = BASE_FRAME_NS * 100 / speed_pct) ∧
    (speed_pct < 25 → target_frame_ns speed_pct = BASE_FRAME_NS * 100 / 25) := by
  obtain ⟨h1, h2⟩ := catch_up_spec (target_frame_ns speed_pct) 8 accum
  refine ⟨h1, h2, rfl, ?_, ?_, ?_, ?_⟩
  · intro h
    simp only [sched_iter]
    rw [if_pos h]
  · intro h
    simp only [sched_iter]
    rw [if_neg (by omega)]
  · intro h
    simp only [target_frame_ns]
    rw [if_neg (by omega)]
  · intro h
    simp only [target_frame_ns]
    rw [if_pos h]

/-- Witness for C9: at 100% speed, an accumulator of 0.4 s runs the full 8
frames and is then reset to zero (it still exceeds 10 targets), while an
accumulator of 50 ms is carried forward unchanged after its frames run; the
target duration at 100% speed divides `BASE_FRAME_NS * 100` by 100 and a
speed request of 10% is clamped to 25%. -/
theorem frame_scheduler_catchup_witness :
    (sched_iter 100 400000000).1 = 0 ∧
    (sched_iter 100 50000000).1
      = (catch_up (target_frame_ns 100) 8 50000000).1 ∧
    target_frame_ns 100 = BASE_FRAME_NS * 100 / 100 ∧
    target_frame_ns 10 = BASE_FRAME_NS * 100 / 25 :=
  ⟨(frame_scheduler_catchup 100 400000000).2.2.2.1 (by decide),
   (frame_scheduler_catchup 100 50000000).2.2.2.2.1 (by decide),
   (frame_scheduler_catchup 100 0).2.2.2.2.2.1 (by decide),
   (frame_scheduler_catchup 10 0).2.2.2.2.2.2 (by decide)⟩

/-- C10: `yage_core_set_volume` always stores a volume clamped into [0, 1];
in the audio batch path, with audio enabled and a stored volume of at least
1 the samples written to the staging buffer are exactly the input samples
(the batch truncated to the buffer capacity, hence the batch itself
whenever it fits), and with audio disabled or a volume of at most 0 every
written sample is zero. -/
theorem volume_clamp_and_mute :
    (∀ v : ℚ, 0 ≤ yage_core_set_volume v ∧ yage_core_set_volume v ≤ 1) ∧
    (∀ (vol : ℚ) (data : List Int), 1 ≤ vol →
      audio_scale true vol data = data.take (AUDIO_BUFFER_SIZE * 2)) ∧
    (∀ (vol : ℚ) (data : List Int), 1 ≤ vol →
      data.length ≤ AUDIO_BUFFER_SIZE * 2 →
      audio_scale true vol data = data) ∧
    (∀ (enabled : Bool) (vol : ℚ) (data : List Int),
      enabled = false ∨ vol ≤ 0 →
      audio_scale enabled vol data
        = List.replicate (data.take (AUDIO_BUFFER_SIZE * 2)).length 0) := by
  have hfull : ∀ (vol : ℚ) (data : List Int), 1 ≤ vol →
      audio_scale true vol data = data.take (AUDIO_BUFFER_SIZE * 2) := by
    intro vol data h1
    simp only [audio_scale, Bool.not_true, Bool.false_or]
    rw [decide_eq_false (show ¬ vol ≤ 0 by linarith)]
    simp only [Bool.false_eq_true, if_false]
    rw [if_pos h1]
  refine ⟨?_, hfull, ?_, ?_⟩
  · intro v
    unfold yage_core_set_volume
    split_ifs <;> constructor <;> linarith
  · intro vol data h1 hlen
    rw [hfull vol data h1, List.take_of_length_le hlen]
  · intro enabled vol data h
    rcases h with h | h
    · subst h
      simp only [audio_scale, Bool.not_false, Bool.true_or, if_true]
    · simp only [audio_scale]
      rw [show (!enabled || decide (vol ≤ 0)) = true by
        rw [decide_eq_true h, Bool.or_true]]
      rw [if_pos rfl]

/-- Witness for C10: volume 3 clamps to 1; at volume 1 a two-sample batch
passes through untouched; with audio disabled a batch is written as
silence. -/
theorem volume_clamp_and_mute_witness :
    (0 ≤ yage_core_set_volume 3 ∧ yage_core_set_volume 3 ≤ 1) ∧
    audio_scale true 1 [9, -4] = [9, -4] ∧
    audio_scale false 1 [9]
      = List.replicate ([9] : List Int).length 0 :=
  ⟨volume_clamp_and_mute.1 3,
   volume_clamp_and_mute.2.2.1 1 [9, -4] (by decide) (by decide),
   volume_clamp_and_mute.2.2.2 false 1 [9] (Or.inl rfl)⟩

end Yage